import Mathlib

/-!
Verification of the file-admission pipeline and prompt assembler of the
AI code-review application.

The admission pipeline (component `ProjectInput`) decides, per selected
file, whether it is forwarded to review; the prompt assembler
(`geminiService.getProjectReviewFeedback`) bundles accepted files into a
single blob and applies aggregate admission control before the remote
call.  JavaScript strings are modelled as Lean `String` (lists of
unicode scalar values); byte sizes use an explicit UTF-8 size function.
-/

namespace CodeReview

/-- Boolean test that `a` is a prefix of `b`; models JS `String.startsWith`
on the character-list view of a string. -/
def isPre : List Char → List Char → Bool
  | [], _ => true
  | _ :: _, [] => false
  | a :: as, b :: bs => a = b && isPre as bs

/-- Boolean test that `a` is a suffix of `b`; models JS `String.endsWith`. -/
def isSuf (a b : List Char) : Bool :=
  isPre a.reverse b.reverse

/-- Boolean substring test; models JS `String.includes`: some position
`i` of the haystack starts an occurrence of the needle. -/
def containsSub (hay needle : List Char) : Bool :=
  (List.range (hay.length + 1)).any (fun i => isPre needle (hay.drop i))

/-- Character-wise lower-casing; models JS `String.toLowerCase` on the
ASCII range in which all patterns and allow-list entries lie. -/
def lowerL (l : List Char) : List Char :=
  l.map Char.toLower

/-- ALLOWED_EXTENSIONS_AND_FILENAMES from ProjectInput: extensions (with
leading dot) and bare filenames admitted by the allow-list stage. -/
def ALLOWED_EXTENSIONS_AND_FILENAMES : List String := [
  ".js", ".jsx", ".ts", ".tsx", ".mjs", ".cjs",
  "package.json", "tsconfig.json", "jsconfig.json",
  ".eslintrc.json", ".prettierrc.json", ".babelrc.json",
  ".html", ".htm", ".css", ".scss", ".sass", ".less", ".styl",
  ".py", "requirements.txt", "Pipfile", "pyproject.toml", ".python-version",
  ".java", ".kt", ".kts", ".scala", ".groovy",
  "pom.xml", "build.gradle", "build.gradle.kts", "settings.gradle",
  ".rb", "Gemfile", "Rakefile", ".ruby-version",
  ".php", "composer.json",
  ".go", "go.mod", "go.sum",
  ".rs", "Cargo.toml", "Cargo.lock",
  ".c", ".cpp", ".h", ".hpp", "Makefile", "CMakeLists.txt",
  ".swift", ".m", ".h",
  ".sh", ".bash", ".zsh", "Dockerfile", "docker-compose.yml", ".yml", ".yaml", ".json",
  ".xml", ".ini", ".toml", ".conf", ".cfg", ".properties",
  ".md", ".txt", ".rst",
  ".sql",
  ".wat",
  ".vue", ".svelte",
  ".gitignore", ".gitattributes", ".editorconfig", "LICENSE", "README"]

/-- IGNORED_PATTERNS from ProjectInput: directory patterns (slash-wrapped),
extension globs (leading star-dot), and literal suffixes. -/
def IGNORED_PATTERNS : List String := [
  "/.git/",
  "/node_modules/",
  "/venv/", "/.venv/", "/env/", "/.env/",
  "/__pycache__/", "/.pytest_cache/", "/.mypy_cache/",
  "/dist/", "/build/", "/out/", "/target/", "/bin/",
  "/.vscode/", "/.idea/", "/.project/", "/.classpath/", "/.settings/",
  ".DS_Store", "Thumbs.db",
  "*.log",
  "*.zip", "*.tar", "*.gz", "*.rar", "*.7z",
  "*.exe", "*.dll", "*.so", "*.o", "*.a", "*.lib", "*.class", "*.pyc", "*.pyo", "*.wasm",
  "*.png", "*.jpg", "*.jpeg", "*.gif", "*.bmp", "*.tiff", "*.ico", "*.webp",
  "*.mp3", "*.wav", ".ogg", "*.mp4", "*.mov", "*.avi", "*.webm", "*.flv",
  "*.pdf", "*.doc", "*.docx", "*.ppt", "*.pptx", "*.xls", "*.xlsx",
  "*.dmg", "*.iso", "*.img",
  "*.woff", "*.woff2", "*.ttf", "*.otf", "*.eot",
  "*.sqlite", "*.db", "*.mdb",
  "*.csv",
  "*.tmp", "*.temp", "*.swp", "*.swo"]

/-- MAX_FILE_SIZE_BYTES: 2 MiB per-file limit. -/
def MAX_FILE_SIZE_BYTES : Nat := 2 * 1024 * 1024

/-- MAX_TOTAL_FILES: cap on the number of files processed. -/
def MAX_TOTAL_FILES : Nat := 500

/-- matchesPattern on the character-list view: a slash-wrapped pattern is
a directory pattern and is searched as a substring of the slash-wrapped
path; a pattern starting with star-dot is an extension glob matched as a
case-insensitive suffix; any other pattern is a case-insensitive literal
suffix. -/
def matchesPatternL (path pattern : List Char) : Bool :=
  if pattern.head? = some '/' && pattern.getLast? = some '/' then
    containsSub ('/' :: path ++ ['/']) pattern
  else if isPre ['*', '.'] pattern then
    isSuf (lowerL (pattern.drop 1)) (lowerL path)
  else
    isSuf (lowerL pattern) (lowerL path)

/-- matchesPattern from ProjectInput, on strings. -/
def matchesPattern (path pattern : String) : Bool :=
  matchesPatternL path.data pattern.data

/-- Path-separator normalization: every backslash becomes a forward
slash (JS `replace` with a global backslash regex). -/
def normalize (path : String) : String :=
  ⟨path.data.map (fun c => if c = '\\' then '/' else c)⟩

/-- Segment of the path after its last slash; the whole path when it has
no slash (JS `substring(lastIndexOf('/') + 1)` guarded by `includes('/')`). -/
def bareOf (l : List Char) : List Char :=
  l.foldl (fun acc c => if c = '/' then [] else acc ++ [c]) []

/-- Lower-cased suffix of the bare filename starting at its last dot
(dot included); empty when the filename has no dot (JS
`substring(lastIndexOf('.')).toLowerCase()` guarded by `includes('.')`). -/
def extOf (l : List Char) : List Char :=
  match l.foldl (fun acc c => if c = '.' then some ['.'] else acc.map (· ++ [c])) none with
  | none => []
  | some e => lowerL e

/-- Reason attached to a skipped file, one per skip-producing branch of
the pipeline (the source renders each as a message string). -/
inductive SkipReason where
  | sizeExceeded : SkipReason
  | ignoredPattern (pattern : String) : SkipReason
  | extensionlessNotAllowlisted (bare : String) : SkipReason
  | extensionNotAllowed (ext : String) : SkipReason
  | unreadableAsText : SkipReason
deriving DecidableEq

/-- Decision of shouldIgnoreFile on an already-normalized path: the size
cap, then the first matching ignore pattern, then the allow-list check on
bare filename and extension.  `none` means the file is admitted. -/
def shouldIgnoreNormalized (np : String) (fileSize : Nat) : Option SkipReason :=
  if fileSize > MAX_FILE_SIZE_BYTES then
    some .sizeExceeded
  else
    match IGNORED_PATTERNS.find? (fun pattern => matchesPattern np pattern) with
    | some pattern => some (.ignoredPattern pattern)
    | none =>
      let BARE_FILENAME : String := ⟨bareOf np.data⟩
      let EXTENSION : String := ⟨extOf BARE_FILENAME.data⟩
      if ALLOWED_EXTENSIONS_AND_FILENAMES.contains BARE_FILENAME
          || ALLOWED_EXTENSIONS_AND_FILENAMES.contains EXTENSION then
        none
      else if EXTENSION = "" && !ALLOWED_EXTENSIONS_AND_FILENAMES.contains BARE_FILENAME then
        some (.extensionlessNotAllowlisted BARE_FILENAME)
      else if EXTENSION ≠ "" && !ALLOWED_EXTENSIONS_AND_FILENAMES.contains EXTENSION then
        some (.extensionNotAllowed EXTENSION)
      else
        none

/-- shouldIgnoreFile from ProjectInput: normalize the separators, then
decide.  The source returns a record of an `ignore` flag and an optional
reason; every ignoring branch carries a reason, so the result is modelled
as `Option SkipReason` (`some` = ignore with that reason). -/
def shouldIgnoreFile (filePath : String) (fileSize : Nat) : Option SkipReason :=
  shouldIgnoreNormalized (normalize filePath) fileSize

/-- ProjectFile: an accepted file, a path together with its decoded text
content. -/
structure ProjectFile where
  path : String
  content : String
deriving DecidableEq

/-- FileDescriptor: one entry of the selected folder as seen by the
processing loop: its relative path, its byte size, and the result of
attempting to read it as text (`none` when `file.text()` rejects, e.g.
for binary data). -/
structure FileDescriptor where
  path : String
  size : Nat
  text : Option String
deriving DecidableEq

/-- SkipRecord: one entry of the skip ledger, a path with the single
reason for which it was skipped. -/
structure SkipRecord where
  path : String
  reason : SkipReason
deriving DecidableEq

/-- Processing loop of handleFileChange over the (already truncated)
file list: each file is either skipped with the reason returned by
shouldIgnoreFile, or read as text and accepted, or — when reading as
text fails — skipped with the unreadable-as-text reason.  Returns the
accepted files and the skip ledger, both in input order. -/
def processList : List FileDescriptor → List ProjectFile × List SkipRecord
  | [] => ([], [])
  | d :: rest =>
    match shouldIgnoreFile d.path d.size with
    | some reason =>
      let r := processList rest
      (r.1, ⟨d.path, reason⟩ :: r.2)
    | none =>
      match d.text with
      | some content =>
        let r := processList rest
        (⟨d.path, content⟩ :: r.1, r.2)
      | none =>
        let r := processList rest
        (r.1, ⟨d.path, .unreadableAsText⟩ :: r.2)

/-- Outcome of handleFileChange: accepted files, skip ledger, and how
many trailing descriptors were cut off by the total-count cap (the
source reports this truncation to the user in an error message). -/
structure AdmissionResult where
  accepted : List ProjectFile
  skipped : List SkipRecord
  truncatedCount : Nat
deriving DecidableEq

/-- handleFileChange from ProjectInput, restricted to its data flow: the
input list is truncated to MAX_TOTAL_FILES, the remainder is reported as
truncated, and the retained prefix runs through the per-file loop. -/
def handleFileChange (files : List FileDescriptor) : AdmissionResult :=
  let filesToProcess := files.take MAX_TOTAL_FILES
  let r := processList filesToProcess
  { accepted := r.1
    skipped := r.2
    truncatedCount :=
      if files.length > MAX_TOTAL_FILES then files.length - MAX_TOTAL_FILES else 0 }

/-- Number of bytes of the UTF-8 encoding of one character; models the
per-character contribution to `TextEncoder().encode(s).length`. -/
def charUtf8Size (c : Char) : Nat :=
  if c.val < 0x80 then 1 else if c.val < 0x800 then 2 else if c.val < 0x10000 then 3 else 4

/-- Byte size of the UTF-8 encoding of a string; models
`new TextEncoder().encode(s).length`. -/
def utf8Len (s : String) : Nat :=
  (s.data.map charUtf8Size).sum

/-- MAX_CONTENT_LENGTH_BYTES: aggregate ceiling on the assembled blob. -/
def MAX_CONTENT_LENGTH_BYTES : Nat := 3800000

/-- Delimited block for one file inside the prompt blob: opening line
carrying the path, a fenced body with the verbatim content, and a
closing line carrying the path again. -/
def fileBlock (f : ProjectFile) : String :=
  "--- File Path: " ++ f.path ++ " ---\n```\n" ++ f.content
    ++ "\n```\n--- End of File: " ++ f.path ++ " ---\n\n"

/-- combinedContent assembled by getProjectReviewFeedback: a header line
naming the project followed by the concatenated file blocks in order. -/
def combinedContent (projectName : String) (files : List ProjectFile) : String :=
  "Project Name: " ++ projectName ++ "\n\n" ++ String.join (files.map fileBlock)

/-- Typed failure of the review function; each constructor corresponds
to one throwing branch before the remote call (the source renders each
as an `Error` message; the payload case's message is built from the
measured size and the limit). -/
inductive ReviewError where
  | configMissing : ReviewError
  | preconditionEmpty : ReviewError
  | payloadTooLarge (measured limit : Nat) : ReviewError
deriving DecidableEq

/-- RemoteRequest: the single request issued to the text-generation
service when every client-side check passes; carries the assembled blob
(the fixed model name and system instruction are constants of the
source and carry no per-call information). -/
structure RemoteRequest where
  contents : String
deriving DecidableEq

/-- Truthiness of the API_KEY configuration value: missing or empty is
falsy in JS — `if (!API_KEY) throw ...`. -/
def apiKeyMissing : Option String → Bool
  | none => true
  | some s => s.isEmpty

/-- getProjectReviewFeedback up to the remote call: the configuration
check, the empty-input check, blob assembly, and the aggregate size
check.  `Except.ok` means the function proceeds to issue exactly this
remote request; every `Except.error` is thrown before any remote call. -/
def getProjectReviewFeedback (apiKey : Option String) (files : List ProjectFile)
    (projectName : String) : Except ReviewError RemoteRequest :=
  if apiKeyMissing apiKey then
    .error .configMissing
  else if files.length = 0 then
    .error .preconditionEmpty
  else
    let combined := combinedContent projectName files
    let currentContentLength := utf8Len combined
    if currentContentLength > MAX_CONTENT_LENGTH_BYTES then
      .error (.payloadTooLarge currentContentLength MAX_CONTENT_LENGTH_BYTES)
    else
      .ok ⟨combined⟩

/-- No occurrence of `sep` starts strictly before position `as.length`
inside `as ++ sep`: the first occurrence of the separator after `as` is
the one appended.  This is the precise condition under which first-match
splitting recovers `as`. -/
def noEarlyOccB (sep as : List Char) : Bool :=
  (List.range as.length).all (fun i => !(isPre sep ((as ++ sep).drop i)))

/-- Split at the first occurrence of `sep`: returns the part before and
the part after that occurrence, or `none` when `sep` does not occur. -/
def splitFirst (sep : List Char) : List Char → Option (List Char × List Char)
  | [] => if isPre sep [] then some ([], []) else none
  | c :: rest =>
    if isPre sep (c :: rest) then some ([], (c :: rest).drop sep.length)
    else (splitFirst sep rest).map (fun r => (c :: r.1, r.2))

/-- Opening delimiter line fragment before the path. -/
def openTag : List Char := "--- File Path: ".data

/-- Fragment between the path and the file content. -/
def pathSep : List Char := " ---\n```\n".data

/-- Closing delimiter carrying the path again. -/
def closeTag (path : List Char) : List Char :=
  "\n```\n--- End of File: ".data ++ path ++ " ---\n\n".data

/-- One file block of the prompt blob, on the character-list view. -/
def blockL (pf : List Char × List Char) : List Char :=
  openTag ++ pf.1 ++ pathSep ++ pf.2 ++ closeTag pf.1

/-- Header line of the prompt blob, on the character-list view. -/
def headerL (projectName : List Char) : List Char :=
  "Project Name: ".data ++ projectName ++ "\n\n".data

/-- Fuelled parser of a sequence of file blocks: reads the opening
delimiter, splits off the path at the first path terminator, splits off
the content at the first closing delimiter for that path, and recurses
on the remainder. -/
def parseBlocksF : Nat → List Char → Option (List (List Char × List Char))
  | 0, _ => none
  | fuel + 1, s =>
    if s = [] then some []
    else if isPre openTag s then
      (splitFirst pathSep (s.drop openTag.length)).bind (fun pr =>
        (splitFirst (closeTag pr.1) pr.2).bind (fun cr =>
          (parseBlocksF fuel cr.2).map (fun rest => (pr.1, cr.1) :: rest)))
    else none

/-- Parser of a whole prompt blob: strip the header for the given
project name, then parse the file blocks. -/
def parseBlob (projectName s : List Char) : Option (List (List Char × List Char)) :=
  if isPre (headerL projectName) s then
    parseBlocksF (s.length + 1) (s.drop (headerL projectName).length)
  else none

/-- Test that a skip reason is of the ignored-pattern kind. -/
def isIgnoredPatternReason : SkipReason → Bool
  | .ignoredPattern _ => true
  | _ => false

/-- Content one byte over the aggregate ceiling. -/
def bigContent : String := ⟨List.replicate (MAX_CONTENT_LENGTH_BYTES + 1) 'a'⟩

example : shouldIgnoreFile "README" 30 = none := by decide
example : shouldIgnoreFile "NOTES" 30 = some (.extensionlessNotAllowlisted "NOTES") := by decide
example : shouldIgnoreFile "src/app.py" 120 = none := by decide
example : shouldIgnoreFile "image.png" 10 = some (.ignoredPattern "*.png") := by decide
example : shouldIgnoreFile "node_modules/x/y.js" 50 = some (.ignoredPattern "/node_modules/") := by decide
example : shouldIgnoreFile ".env" 10 = some (.ignoredPattern "/.env/") := by decide
example : shouldIgnoreFile "a/b/env" 10 = some (.ignoredPattern "/env/") := by decide
example : shouldIgnoreFile "big.ts" (2 * 1024 * 1024 + 1) = some .sizeExceeded := by decide
example : shouldIgnoreFile "app.xyz" 10 = some (.extensionNotAllowed ".xyz") := by decide
example : shouldIgnoreFile "dir\\sub\\a.ts" 10 = none := by decide
example : shouldIgnoreFile "Cargo.lock" 10 = none := by decide

example : getProjectReviewFeedback (some "k") [] "P" = .error .preconditionEmpty := rfl
example : getProjectReviewFeedback none [⟨"a", "b"⟩] "P" = .error .configMissing := rfl
example :
    getProjectReviewFeedback (some "k") [⟨"a", "b"⟩] "P" =
      .ok ⟨combinedContent "P" [⟨"a", "b"⟩]⟩ := rfl
example :
    processList [⟨"src/a.ts", 120, some "x"⟩, ⟨"node_modules/x/y.js", 50, some "y"⟩,
        ⟨"README", 30, some "z"⟩] =
      ([⟨"src/a.ts", "x"⟩, ⟨"README", "z"⟩],
        [⟨"node_modules/x/y.js", .ignoredPattern "/node_modules/"⟩]) := by decide

theorem isPre_append_self (a t : List Char) : isPre a (a ++ t) = true := by
  induction a with
  | nil => rfl
  | cons c cs ih => simp [isPre, ih]

theorem isPre_append_of_le (sep x bs : List Char) (h : sep.length ≤ x.length) :
    isPre sep (x ++ bs) = isPre sep x := by
  induction sep generalizing x with
  | nil => cases x <;> rfl
  | cons c cs ih =>
    cases x with
    | nil => simp at h
    | cons y ys =>
      simp only [List.cons_append, isPre, List.append_eq]
      rw [ih ys (by simpa using h)]

theorem containsSub_of_decomp (as needle bs : List Char) :
    containsSub (as ++ needle ++ bs) needle = true := by
  unfold containsSub
  rw [List.any_eq_true]
  refine ⟨as.length, List.mem_range.mpr (by simp; omega), ?_⟩
  rw [List.append_assoc, List.drop_left]
  exact isPre_append_self needle bs

theorem noEarlyOccB_iff (sep as : List Char) :
    noEarlyOccB sep as = true ↔
      ∀ i, i < as.length → isPre sep ((as ++ sep).drop i) = false := by
  simp [noEarlyOccB, List.all_eq_true, List.mem_range]

theorem splitFirst_append (sep as bs : List Char) (hsep : sep ≠ [])
    (h : noEarlyOccB sep as = true) :
    splitFirst sep (as ++ sep ++ bs) = some (as, bs) := by
  induction as with
  | nil =>
    obtain ⟨c, s, rfl⟩ : ∃ c s, sep = c :: s := by
      cases sep with
      | nil => exact absurd rfl hsep
      | cons c s => exact ⟨c, s, rfl⟩
    show splitFirst (c :: s) (c :: (s ++ bs)) = some ([], bs)
    rw [splitFirst, if_pos]
    · show some ([], ((c :: s) ++ bs).drop (c :: s).length) = some ([], bs)
      rw [List.drop_left]
    · exact isPre_append_self (c :: s) bs
  | cons a as ih =>
    have h0 : isPre sep ((a :: as) ++ sep) = false := by
      have := (noEarlyOccB_iff sep (a :: as)).mp h 0 (by simp)
      simpa using this
    have h0' : isPre sep ((a :: as) ++ sep ++ bs) = false := by
      rw [isPre_append_of_le sep ((a :: as) ++ sep) bs (by simp; omega)]
      exact h0
    have hrec : noEarlyOccB sep as = true := by
      rw [noEarlyOccB_iff]
      intro i hi
      have := (noEarlyOccB_iff sep (a :: as)).mp h (i + 1) (by simpa using hi)
      simpa using this
    show splitFirst sep (a :: (as ++ sep ++ bs)) = some (a :: as, bs)
    rw [splitFirst, if_neg, ih hrec]
    · rfl
    · rw [show a :: (as ++ sep ++ bs) = (a :: as) ++ sep ++ bs from rfl, h0']
      simp

theorem foldl_append_data (l : List String) :
    ∀ acc : String, (l.foldl (· ++ ·) acc).data = acc.data ++ (l.map String.data).flatten := by
  induction l with
  | nil => intro acc; simp
  | cons s rest ih =>
    intro acc
    simp only [List.foldl_cons, ih (acc ++ s), List.map_cons, List.flatten_cons,
      String.data_append, List.append_assoc]

theorem stringJoin_data (l : List String) :
    (String.join l).data = (l.map String.data).flatten := by
  have := foldl_append_data l ""
  simpa [String.join] using this

theorem fileBlock_data (f : ProjectFile) :
    (fileBlock f).data = blockL (f.path.data, f.content.data) := by
  simp [fileBlock, blockL, openTag, pathSep, closeTag, String.data_append, List.append_assoc]

theorem combinedContent_data (name : String) (files : List ProjectFile) :
    (combinedContent name files).data =
      headerL name.data ++ ((files.map fun f => (f.path.data, f.content.data)).map blockL).flatten := by
  have hmap : (files.map fileBlock).map String.data =
      (files.map fun f => (f.path.data, f.content.data)).map blockL := by
    induction files with
    | nil => rfl
    | cons f fs ih => simp [ih, fileBlock_data f]
  simp [combinedContent, headerL, String.data_append, stringJoin_data, hmap, List.append_assoc]

theorem openTag_length : openTag.length = 15 := by decide

theorem blockL_pos (pf : List Char × List Char) : 0 < (blockL pf).length := by
  simp only [blockL, List.length_append, openTag_length]
  omega

theorem closeTag_ne_nil (p : List Char) : closeTag p ≠ [] := by
  intro h
  apply_fun List.length at h
  have h22 : ("\n```\n--- End of File: ".data).length = 22 := by decide
  simp only [closeTag, List.length_append, h22, List.length_nil] at h
  omega

theorem join_blocks_length (bl : List (List Char × List Char)) :
    bl.length ≤ ((bl.map blockL).flatten).length := by
  induction bl with
  | nil => simp
  | cons p fs ih =>
    simp only [List.map_cons, List.flatten_cons, List.length_append, List.length_cons]
    have := blockL_pos p
    omega

theorem parseBlocksF_join (bl : List (List Char × List Char)) :
    ∀ fuel, bl.length < fuel →
    (∀ pf ∈ bl, noEarlyOccB pathSep pf.1 = true ∧ noEarlyOccB (closeTag pf.1) pf.2 = true) →
    parseBlocksF fuel ((bl.map blockL).flatten) = some bl := by
  induction bl with
  | nil =>
    intro fuel hf _
    obtain ⟨f, rfl⟩ : ∃ f, fuel = f + 1 := ⟨fuel - 1, by omega⟩
    simp [parseBlocksF]
  | cons p fs ih =>
    intro fuel hf hyp
    obtain ⟨f, rfl⟩ : ∃ f, fuel = f + 1 := ⟨fuel - 1, by omega⟩
    obtain ⟨h1, h2⟩ := hyp p (List.mem_cons_self p fs)
    simp only [List.map_cons, List.flatten_cons]
    have hshape : blockL p ++ (fs.map blockL).flatten =
        openTag ++ (p.1 ++ pathSep ++ (p.2 ++ closeTag p.1 ++ (fs.map blockL).flatten)) := by
      simp [blockL, List.append_assoc]
    have hne : blockL p ++ (fs.map blockL).flatten ≠ [] := by
      intro hc
      apply_fun List.length at hc
      have := blockL_pos p
      simp only [List.length_append, List.length_nil] at hc
      omega
    have hpre : isPre openTag (blockL p ++ (fs.map blockL).flatten) = true := by
      rw [hshape]; exact isPre_append_self _ _
    rw [parseBlocksF, if_neg hne, if_pos hpre, hshape, List.drop_left,
      splitFirst_append pathSep p.1 (p.2 ++ closeTag p.1 ++ (fs.map blockL).flatten)
        (by decide) h1]
    simp only [Option.some_bind]
    rw [splitFirst_append (closeTag p.1) p.2 ((fs.map blockL).flatten) (closeTag_ne_nil p.1) h2]
    simp only [Option.some_bind]
    rw [ih f (by simpa using Nat.lt_of_succ_lt_succ hf)
      (fun pf hpf => hyp pf (List.mem_cons_of_mem p hpf))]
    rfl

theorem containsSub_eq_true (hay needle as bs : List Char)
    (h : hay = as ++ needle ++ bs) : containsSub hay needle = true :=
  h ▸ containsSub_of_decomp as needle bs

theorem scan_ignored (np : String) (sz : Nat) (hsz : ¬ sz > MAX_FILE_SIZE_BYTES)
    (h : ∃ pat ∈ IGNORED_PATTERNS, matchesPattern np pat = true) :
    ∃ pat, shouldIgnoreNormalized np sz = some (.ignoredPattern pat) := by
  simp only [shouldIgnoreNormalized]
  rw [if_neg hsz]
  cases hfind : IGNORED_PATTERNS.find? (fun pattern => matchesPattern np pattern) with
  | none =>
    exfalso
    obtain ⟨pat, hmem, hmat⟩ := h
    exact (List.find?_eq_none.mp hfind pat hmem) hmat
  | some pat => exact ⟨pat, rfl⟩

theorem utf8Len_append (a b : String) : utf8Len (a ++ b) = utf8Len a + utf8Len b := by
  simp [utf8Len, String.data_append]

theorem utf8Len_replicate (n : Nat) (c : Char) :
    utf8Len ⟨List.replicate n c⟩ = n * charUtf8Size c := by
  induction n with
  | zero => simp [utf8Len]
  | succ m ih =>
    simp only [utf8Len, List.replicate_succ, List.map_cons, List.sum_cons] at ih ⊢
    rw [ih]
    ring

theorem processList_append (xs ys : List FileDescriptor) :
    processList (xs ++ ys) =
      ((processList xs).1 ++ (processList ys).1, (processList xs).2 ++ (processList ys).2) := by
  induction xs with
  | nil => simp [processList]
  | cons d rest ih =>
    simp only [List.cons_append, processList]
    cases h : shouldIgnoreFile d.path d.size with
    | some reason => simp [h, ih]
    | none =>
      cases ht : d.text with
      | some content => simp [ht, ih]
      | none => simp [ht, ih]

theorem processList_length (l : List FileDescriptor) :
    (processList l).1.length + (processList l).2.length = l.length := by
  induction l with
  | nil => rfl
  | cons d rest ih =>
    simp only [processList]
    cases h : shouldIgnoreFile d.path d.size with
    | some reason => simp only [List.length_cons]; omega
    | none =>
      cases ht : d.text with
      | some content => simp only [List.length_cons]; omega
      | none => simp only [List.length_cons]; omega

theorem processList_paths_sublist (l : List FileDescriptor) :
    ((processList l).1.map ProjectFile.path).Sublist (l.map FileDescriptor.path) := by
  induction l with
  | nil => simp [processList]
  | cons d rest ih =>
    simp only [processList, List.map_cons]
    cases h : shouldIgnoreFile d.path d.size with
    | some reason => exact ih.cons d.path
    | none =>
      cases ht : d.text with
      | some content => exact ih.cons₂ d.path
      | none => exact ih.cons d.path

/-- Claim C1: a descriptor whose byte size exceeds 2 MiB is skipped with
the size-exceeded reason, whatever its path: the size cap is decided
before the ignore-pattern list and the allow-list are consulted, so
neither can change the outcome. -/
theorem size_cap_takes_precedence (path : String) (size : Nat)
    (h : size > MAX_FILE_SIZE_BYTES) :
    shouldIgnoreFile path size = some .sizeExceeded := by
  simp only [shouldIgnoreFile, shouldIgnoreNormalized]
  rw [if_pos h]

/-- Witness for C1 at a concrete oversized file whose path would match an
ignore pattern and fail the allow-list, were they consulted. -/
theorem size_cap_takes_precedence_witness :
    shouldIgnoreFile "node_modules/huge.xyz" (MAX_FILE_SIZE_BYTES + 1) = some .sizeExceeded :=
  size_cap_takes_precedence "node_modules/huge.xyz" (MAX_FILE_SIZE_BYTES + 1) (by omega)

/-- Counterexample to claim C2 as stated: a descriptor inside
node_modules whose size exceeds the per-file cap is skipped, but with the
size-exceeded reason, not the ignored-pattern reason. -/
theorem node_modules_oversized_counterexample :
    shouldIgnoreFile "node_modules/app.js" (MAX_FILE_SIZE_BYTES + 1) = some .sizeExceeded ∧
    (shouldIgnoreFile "node_modules/app.js" (MAX_FILE_SIZE_BYTES + 1)).map
      isIgnoredPatternReason = some false := by
  constructor <;> decide

/-- Claim C2 (amended): a descriptor within the per-file size cap whose
slash-wrapped normalized path contains the directory pattern
`/node_modules/` as a substring is skipped with an ignored-pattern
reason. -/
theorem node_modules_ignored_within_size_cap (p : String) (sz : Nat)
    (hsz : sz ≤ MAX_FILE_SIZE_BYTES)
    (h : ∃ as bs, '/' :: (normalize p).data ++ ['/'] = as ++ "/node_modules/".data ++ bs) :
    ∃ pat, shouldIgnoreFile p sz = some (.ignoredPattern pat) := by
  obtain ⟨as, bs, hd⟩ := h
  show ∃ pat, shouldIgnoreNormalized (normalize p) sz = some (.ignoredPattern pat)
  apply scan_ignored _ _ (by omega)
  refine ⟨"/node_modules/", by decide, ?_⟩
  simp only [matchesPattern, matchesPatternL]
  rw [if_pos (by decide)]
  exact containsSub_eq_true _ _ as bs hd

/-- Witness for amended C2 at a root-level node_modules path. -/
theorem node_modules_ignored_within_size_cap_witness :
    ∃ pat, shouldIgnoreFile "node_modules/x/y.js" 50 = some (.ignoredPattern pat) :=
  node_modules_ignored_within_size_cap "node_modules/x/y.js" 50 (by decide)
    ⟨[], "x/y.js/".data, by decide⟩

/-- Claim C3: with the API key configured, calling the review function
with an empty accepted-file list yields the typed precondition-empty
error; no remote request is produced (the result is an error, and in the
source the throw occurs before the blob is assembled). -/
theorem empty_files_precondition_error (apiKey : Option String) (projectName : String)
    (hkey : apiKeyMissing apiKey = false) :
    getProjectReviewFeedback apiKey [] projectName = .error .preconditionEmpty := by
  simp [getProjectReviewFeedback, hkey]

/-- Witness for C3 at a concrete key and project name. -/
theorem empty_files_precondition_error_witness :
    getProjectReviewFeedback (some "key") [] "AnyProject" = .error .preconditionEmpty :=
  empty_files_precondition_error (some "key") "AnyProject" (by decide)

/-- Counterexample to claim C10 as stated: a file named exactly `.env`
whose size exceeds the per-file cap is skipped, but with the
size-exceeded reason, not the ignored-pattern reason — the size cap
precedes the pattern scan, so the claim needs a size qualifier. -/
theorem dotenv_oversized_counterexample :
    shouldIgnoreFile ".env" (MAX_FILE_SIZE_BYTES + 1) = some .sizeExceeded ∧
    (shouldIgnoreFile ".env" (MAX_FILE_SIZE_BYTES + 1)).map
      isIgnoredPatternReason = some false := by
  constructor <;> decide

/-- Claim C10 (amended): because the path is wrapped in slashes before
the substring test, a file within the 2 MiB per-file size cap whose
normalized path ends in a final segment named exactly `.env` or `env` —
at the root or at any depth — is skipped with an ignored-pattern reason
(via the `/.env/` and `/env/` directory patterns). -/
theorem directory_pattern_matches_final_segment (p : String) (sz : Nat)
    (hsz : sz ≤ MAX_FILE_SIZE_BYTES)
    (h : ∃ s, (s = [] ∨ ∃ t, s = t ++ ['/']) ∧
        ((normalize p).data = s ++ ".env".data ∨ (normalize p).data = s ++ "env".data)) :
    ∃ pat, shouldIgnoreFile p sz = some (.ignoredPattern pat) := by
  obtain ⟨s, hs, hcase⟩ := h
  show ∃ pat, shouldIgnoreNormalized (normalize p) sz = some (.ignoredPattern pat)
  apply scan_ignored _ _ (by omega)
  have hdot : ".env".data = ['.', 'e', 'n', 'v'] := rfl
  have henvd : "env".data = ['e', 'n', 'v'] := rfl
  cases hcase with
  | inl henv =>
    refine ⟨"/.env/", by decide, ?_⟩
    simp only [matchesPattern, matchesPatternL]
    rw [if_pos (by decide), henv]
    cases hs with
    | inl hnil => subst hnil; decide
    | inr ht =>
      obtain ⟨t, rfl⟩ := ht
      apply containsSub_eq_true _ _ ('/' :: t) []
      simp [hdot, List.append_assoc]
  | inr henv =>
    refine ⟨"/env/", by decide, ?_⟩
    simp only [matchesPattern, matchesPatternL]
    rw [if_pos (by decide), henv]
    cases hs with
    | inl hnil => subst hnil; decide
    | inr ht =>
      obtain ⟨t, rfl⟩ := ht
      apply containsSub_eq_true _ _ ('/' :: t) []
      simp [henvd, List.append_assoc]

/-- Witness for C10 at a nested `.env` file. -/
theorem directory_pattern_matches_final_segment_witness :
    ∃ pat, shouldIgnoreFile "src/.env" 10 = some (.ignoredPattern pat) :=
  directory_pattern_matches_final_segment "src/.env" 10 (by decide)
    ⟨"src/".data, Or.inr ⟨"src".data, by decide⟩, Or.inl (by decide)⟩

/-- Claim C4: for a non-empty file list (and configured key), an
assembled blob whose UTF-8 byte size exceeds the 3,800,000-byte ceiling
makes the review function fail with the payload-too-large error carrying
the measured size and the limit, producing no remote request; at or
under the ceiling it proceeds to attempt the remote call with exactly
the assembled blob. -/
theorem payload_ceiling_admission (apiKey : Option String) (files : List ProjectFile)
    (projectName : String) (hkey : apiKeyMissing apiKey = false) (hne : files ≠ []) :
    (utf8Len (combinedContent projectName files) > MAX_CONTENT_LENGTH_BYTES →
      getProjectReviewFeedback apiKey files projectName =
        .error (.payloadTooLarge (utf8Len (combinedContent projectName files))
          MAX_CONTENT_LENGTH_BYTES)) ∧
    (utf8Len (combinedContent projectName files) ≤ MAX_CONTENT_LENGTH_BYTES →
      getProjectReviewFeedback apiKey files projectName =
        .ok ⟨combinedContent projectName files⟩) := by
  have hlen : ¬ files.length = 0 := fun hc => hne (List.length_eq_zero.mp hc)
  constructor
  · intro hbig
    simp only [getProjectReviewFeedback]
    rw [if_neg (by simp [hkey]), if_neg hlen, if_pos hbig]
  · intro hsmall
    simp only [getProjectReviewFeedback]
    rw [if_neg (by simp [hkey]), if_neg hlen, if_neg (by omega)]

/-- Witness for C4: a blob containing one byte more than the ceiling is
rejected with the measured size, while a tiny blob passes through to the
remote request. -/
theorem payload_ceiling_admission_witness :
    getProjectReviewFeedback (some "key") [⟨"p", bigContent⟩] "P" =
      .error (.payloadTooLarge (utf8Len (combinedContent "P" [⟨"p", bigContent⟩]))
        MAX_CONTENT_LENGTH_BYTES) ∧
    getProjectReviewFeedback (some "key") [⟨"a", "b"⟩] "P" =
      .ok ⟨combinedContent "P" [⟨"a", "b"⟩]⟩ := by
  have hbig : utf8Len (combinedContent "P" [⟨"p", bigContent⟩]) > MAX_CONTENT_LENGTH_BYTES := by
    have hdata := combinedContent_data "P" [⟨"p", bigContent⟩]
    have hrep : ((bigContent.data).map charUtf8Size).sum = MAX_CONTENT_LENGTH_BYTES + 1 := by
      simp [bigContent, utf8Len, show charUtf8Size 'a' = 1 from rfl]
    rw [utf8Len, hdata]
    simp only [List.map_cons, List.map_nil, List.flatten_cons, List.flatten_nil,
      List.append_nil, blockL, headerL, List.map_append, List.sum_append, hrep]
    omega
  refine ⟨(payload_ceiling_admission (some "key") [⟨"p", bigContent⟩] "P" (by decide)
    (List.cons_ne_nil _ _)).1 hbig,
    (payload_ceiling_admission (some "key") [⟨"a", "b"⟩] "P" (by decide)
    (List.cons_ne_nil _ _)).2 (by decide)⟩

/-- Counterexample to claim C5 as stated: the delimiter framing is not
injective on arbitrary contents, so no splitting procedure can recover
the original pairs from the blob — a single file whose content embeds
the framing produces the same blob as two separate files. -/
theorem blob_framing_not_injective :
    combinedContent "P"
        [⟨"p", "x\n```\n--- End of File: p ---\n\n--- File Path: p ---\n```\ny"⟩] =
      combinedContent "P" [⟨"p", "x"⟩, ⟨"p", "y"⟩] ∧
    ([⟨"p", "x\n```\n--- End of File: p ---\n\n--- File Path: p ---\n```\ny"⟩] :
        List ProjectFile) ≠ [⟨"p", "x"⟩, ⟨"p", "y"⟩] := by
  constructor <;> decide

/-- Claim C5 (amended): splitting the assembled blob on its first
file-delimiter markers reconstructs the original ordered (path, content)
pairs, provided no path contains the path-terminator sequence and no
content contains the closing delimiter for its path before the real one
(the counterexample shows this marker-freedom proviso is necessary). -/
theorem blob_roundtrip (name : String) (files : List ProjectFile)
    (h : ∀ f ∈ files, noEarlyOccB pathSep f.path.data = true ∧
        noEarlyOccB (closeTag f.path.data) f.content.data = true) :
    parseBlob name.data (combinedContent name files).data =
      some (files.map fun f => (f.path.data, f.content.data)) := by
  have hdata := combinedContent_data name files
  have hpre : isPre (headerL name.data) (combinedContent name files).data = true := by
    rw [hdata]; exact isPre_append_self _ _
  simp only [parseBlob]
  rw [if_pos hpre, hdata, List.drop_left]
  apply parseBlocksF_join
  · have hj := join_blocks_length (files.map fun f => (f.path.data, f.content.data))
    simp only [List.length_append, List.length_map] at hj ⊢
    omega
  · intro pf hpf
    obtain ⟨f, hf, rfl⟩ := List.mem_map.mp hpf
    exact h f hf

/-- Witness for amended C5 at a concrete marker-free file list. -/
theorem blob_roundtrip_witness :
    parseBlob "Proj".data (combinedContent "Proj" [⟨"src/a.ts", "let x = 1\n"⟩]).data =
      some ([⟨"src/a.ts", "let x = 1\n"⟩].map fun f =>
        ((f : ProjectFile).path.data, f.content.data)) :=
  blob_roundtrip "Proj" [⟨"src/a.ts", "let x = 1\n"⟩] (by
    intro f hf
    rw [List.mem_singleton] at hf
    subst hf
    exact ⟨by decide, by decide⟩)

/-- Claim C6: past the size and ignore-pattern stages, the allow-list
check derives the bare filename (after the last slash) and the
lower-cased extension (from the last dot, empty if none) and accepts
exactly when either is an allow-list entry; otherwise an extensionless
file is skipped with the extensionless-not-allowlisted reason and a file
with an extension with the extension-not-allowed reason.  In particular
`README` (allow-listed bare filename) is accepted, `NOTES` is skipped as
extensionless, and an unknown extension is skipped as not allowed. -/
theorem allowlist_stage_characterization (p : String) (sz : Nat)
    (hsz : ¬ sz > MAX_FILE_SIZE_BYTES)
    (hpat : IGNORED_PATTERNS.find? (fun pattern => matchesPattern (normalize p) pattern) = none) :
    (shouldIgnoreFile p sz =
      (let BARE_FILENAME : String := ⟨bareOf (normalize p).data⟩
       let EXTENSION : String := ⟨extOf BARE_FILENAME.data⟩
       if ALLOWED_EXTENSIONS_AND_FILENAMES.contains BARE_FILENAME
           || ALLOWED_EXTENSIONS_AND_FILENAMES.contains EXTENSION then
         none
       else if EXTENSION = "" then
         some (.extensionlessNotAllowlisted BARE_FILENAME)
       else
         some (.extensionNotAllowed EXTENSION))) ∧
    shouldIgnoreFile "README" 30 = none ∧
    shouldIgnoreFile "NOTES" 30 = some (.extensionlessNotAllowlisted "NOTES") ∧
    shouldIgnoreFile "app.xyz" 10 = some (.extensionNotAllowed ".xyz") := by
  refine ⟨?_, by decide, by decide, by decide⟩
  show shouldIgnoreNormalized (normalize p) sz = _
  simp only [shouldIgnoreNormalized, hpat]
  rw [if_neg hsz]
  split_ifs <;> simp_all

/-- Witness for C6 at the `README` descriptor, which passes the size cap
and matches no ignore pattern. -/
theorem allowlist_stage_characterization_witness :
    shouldIgnoreFile "README" 30 = none ∧
    shouldIgnoreFile "NOTES" 30 = some (.extensionlessNotAllowlisted "NOTES") :=
  ⟨(allowlist_stage_characterization "README" 30 (by decide) (by decide)).2.1,
   (allowlist_stage_characterization "README" 30 (by decide) (by decide)).2.2.1⟩

/-- Claim C7: with more than 500 descriptors, only the first 500 are run
through the pipeline — accepted files and skip ledger coincide with
those of the truncated input, every considered file lands in exactly one
of the two outputs (so truncated descriptors appear in neither), and the
number of truncated descriptors is reported. -/
theorem total_count_cap (files : List FileDescriptor) (h : files.length > MAX_TOTAL_FILES) :
    (handleFileChange files).accepted = (handleFileChange (files.take MAX_TOTAL_FILES)).accepted ∧
    (handleFileChange files).skipped = (handleFileChange (files.take MAX_TOTAL_FILES)).skipped ∧
    (handleFileChange files).accepted.length + (handleFileChange files).skipped.length =
      MAX_TOTAL_FILES ∧
    (handleFileChange files).truncatedCount = files.length - MAX_TOTAL_FILES := by
  refine ⟨?_, ?_, ?_, ?_⟩
  · simp [handleFileChange, List.take_take]
  · simp [handleFileChange, List.take_take]
  · have hp := processList_length (files.take MAX_TOTAL_FILES)
    have hl : (files.take MAX_TOTAL_FILES).length = MAX_TOTAL_FILES := by
      rw [List.length_take]
      omega
    simp only [handleFileChange]
    omega
  · simp [handleFileChange, h]

/-- Witness for C7 at a list of 501 identical descriptors. -/
theorem total_count_cap_witness :
    (handleFileChange (List.replicate 501 (⟨"a.ts", 10, some "x"⟩ : FileDescriptor))).truncatedCount =
      (List.replicate 501 (⟨"a.ts", 10, some "x"⟩ : FileDescriptor)).length - MAX_TOTAL_FILES :=
  (total_count_cap (List.replicate 501 ⟨"a.ts", 10, some "x"⟩)
    (by simp only [List.length_replicate]; decide)).2.2.2

/-- Claim C8: the accepted-file output of the admission pipeline is a
subsequence of the input sequence — accepted paths appear in input
order; the embedding is a pure function of the input list, so the result
is deterministic by construction. -/
theorem accepted_is_subsequence_of_input (files : List FileDescriptor) :
    ((handleFileChange files).accepted.map ProjectFile.path).Sublist
      (files.map FileDescriptor.path) := by
  have h1 := processList_paths_sublist (files.take MAX_TOTAL_FILES)
  have h2 : ((files.take MAX_TOTAL_FILES).map FileDescriptor.path).Sublist
      (files.map FileDescriptor.path) := (List.take_sublist _ _).map _
  exact Trans.trans (by simpa [handleFileChange] using h1) h2

/-- Claim C9: a file that passed the count, size, pattern and allow-list
checks but fails to decode as text is removed alone — the files around
it are processed unchanged — and is recorded in the skip ledger with the
unreadable-as-text reason; every considered file produces exactly one
outcome (acceptance or a single-reason skip record), so the pipeline
never aborts on a bad file. -/
theorem decode_failure_isolated (xs ys : List FileDescriptor) (d : FileDescriptor)
    (hlen : xs.length + 1 + ys.length ≤ MAX_TOTAL_FILES)
    (hpass : shouldIgnoreFile d.path d.size = none)
    (hfail : d.text = none) :
    (handleFileChange (xs ++ d :: ys)).accepted = (handleFileChange (xs ++ ys)).accepted ∧
    (handleFileChange (xs ++ d :: ys)).skipped =
      (processList xs).2 ++ ⟨d.path, .unreadableAsText⟩ :: (processList ys).2 ∧
    (handleFileChange (xs ++ d :: ys)).accepted.length +
      (handleFileChange (xs ++ d :: ys)).skipped.length = xs.length + 1 + ys.length := by
  have h1 : (xs ++ d :: ys).length ≤ MAX_TOTAL_FILES := by
    simp only [List.length_append, List.length_cons]
    omega
  have h2 : (xs ++ ys).length ≤ MAX_TOTAL_FILES := by
    simp only [List.length_append]
    omega
  have ht1 : (xs ++ d :: ys).take MAX_TOTAL_FILES = xs ++ d :: ys := List.take_of_length_le h1
  have ht2 : (xs ++ ys).take MAX_TOTAL_FILES = xs ++ ys := List.take_of_length_le h2
  have hd : processList (d :: ys) =
      ((processList ys).1, ⟨d.path, .unreadableAsText⟩ :: (processList ys).2) := by
    simp [processList, hpass, hfail]
  refine ⟨?_, ?_, ?_⟩
  · simp [handleFileChange, ht1, ht2, processList_append, hd]
  · simp [handleFileChange, ht1, processList_append, hd]
  · have hp := processList_length (xs ++ d :: ys)
    simp only [List.length_append, List.length_cons] at hp
    simp only [handleFileChange, ht1]
    omega

/-- Witness for C9: a two-file list whose first member passes every check
but cannot be decoded as text. -/
theorem decode_failure_isolated_witness :
    (handleFileChange (([] : List FileDescriptor) ++ ⟨"a.md", 7, none⟩ ::
        [⟨"b.py", 5, some "y"⟩])).accepted =
      (handleFileChange (([] : List FileDescriptor) ++ [⟨"b.py", 5, some "y"⟩])).accepted ∧
    (handleFileChange (([] : List FileDescriptor) ++ ⟨"a.md", 7, none⟩ ::
        [⟨"b.py", 5, some "y"⟩])).skipped =
      (processList []).2 ++ ⟨"a.md", .unreadableAsText⟩ ::
        (processList [⟨"b.py", 5, some "y"⟩]).2 ∧
    (handleFileChange (([] : List FileDescriptor) ++ ⟨"a.md", 7, none⟩ ::
        [⟨"b.py", 5, some "y"⟩])).accepted.length +
      (handleFileChange (([] : List FileDescriptor) ++ ⟨"a.md", 7, none⟩ ::
        [⟨"b.py", 5, some "y"⟩])).skipped.length =
      ([] : List FileDescriptor).length + 1 + [(⟨"b.py", 5, some "y"⟩ : FileDescriptor)].length :=
  decode_failure_isolated [] [⟨"b.py", 5, some "y"⟩] ⟨"a.md", 7, none⟩ (by decide) (by decide) rfl

end CodeReview
